import Mathlib

set_option maxRecDepth 8000

/-!
Verification development for the AskMyDocs retrieval engine.

The definitions below are a shallow embedding of the Python sources:
  backend/utils/smart_chunker.py   (MarkdownDocumentChunker)
  backend/utils/qdrant_client.py   (QdrantOfficialHybridStore)
  backend/utils/agentic_rag.py     (HybridSearchRetriever, AgenticRAG)

Modelling conventions:
  - Python strings are Lean `String`; string primitives that the code uses
    (strip, split, count, slicing) are re-implemented below over the
    character list so that their semantics match Python and reduce well.
  - Python floats are modelled as exact rationals `ℚ`.
  - Fresh `uuid.uuid4()` draws are modelled by an explicit supply
    `u : Nat → String` together with a draw counter threaded through the
    chunker; the n-th chunk created receives id `u n`.
  - Fallible external calls (vector-store upload, graph invocation,
    hybrid search) are modelled as `Except String _` values supplied by
    the caller; `raise` is `Except.error`.
-/

namespace StrOps

/-- Python `str.strip()` on the character list: drop leading and trailing
whitespace.  (The code only ever feeds ASCII text, for which
`Char.isWhitespace` matches Python's notion of whitespace.) -/
def stripData (l : List Char) : List Char :=
  ((l.dropWhile Char.isWhitespace).reverse.dropWhile Char.isWhitespace).reverse

/-- Python `s.strip()`. -/
def strip (s : String) : String := ⟨stripData s.data⟩

/-- If `sub` is an initial block of `l`, return the remainder. -/
def dropLit : List Char → List Char → Option (List Char)
  | [], l => some l
  | _ :: _, [] => none
  | s :: ss, c :: cs => if c = s then dropLit ss cs else none

/-- Worker for `splitOnL`: scan left to right, cutting at each
non-overlapping occurrence of `sub` (Python `str.split(sub)` semantics).
`fuel ≥ length of the scanned list` guarantees the exhaustion branch is
never taken. -/
def splitOnGo (sub : List Char) : Nat → List Char → List Char → List (List Char)
  | _, [], acc => [acc.reverse]
  | 0, l, acc => [acc.reverse ++ l]
  | Nat.succ fuel, c :: cs, acc =>
    match dropLit sub (c :: cs) with
    | some rest => acc.reverse :: splitOnGo sub fuel rest []
    | none => splitOnGo sub fuel cs (c :: acc)

/-- Python `s.split(sub)` for a non-empty literal separator (`[l]` when the
separator is empty, a case the code never reaches). -/
def splitOnL (sub l : List Char) : List (List Char) :=
  if sub = [] then [l] else splitOnGo sub l.length l []

/-- Python `s.split(sep)` at `String` level. -/
def splitOnS (sep s : String) : List String :=
  (splitOnL sep.data s.data).map (fun l => ⟨l⟩)

/-- Python `s.count(sub)` (non-overlapping occurrences, `sub` non-empty). -/
def countSub (sub s : String) : Nat :=
  (splitOnL sub.data s.data).length - 1

/-- Python `sub in s` / `re.search` for a non-empty literal pattern. -/
def occursIn (sub s : String) : Bool :=
  decide (2 ≤ (splitOnL sub.data s.data).length)

/-- Python slice `s[:n]`. -/
def takeS (n : Nat) (s : String) : String := ⟨s.data.take n⟩

/-- Python `line.lstrip("#")`. -/
def lstripHash (s : String) : String := ⟨s.data.dropWhile (fun c => c = '#')⟩

/-- Python `s.startswith(p)`. -/
def startsWithS (p s : String) : Bool := (dropLit p.data s.data).isSome

/-- Python `s.endswith(p)`. -/
def endsWithS (p s : String) : Bool := (dropLit p.data.reverse s.data.reverse).isSome

/-- Exact rational addition computed on numerator/denominator pairs.
Equal to `+` on `ℚ`; written this way so that concrete values reduce
inside the kernel. -/
def qadd (a b : ℚ) : ℚ := mkRat (a.num * b.den + b.num * a.den) (a.den * b.den)

theorem dropWhile_dropWhile (p : Char → Bool) (l : List Char) :
    (l.dropWhile p).dropWhile p = l.dropWhile p := by
  induction l with
  | nil => rfl
  | cons a t ih =>
    by_cases h : p a
    · simp [List.dropWhile, h, ih]
    · simp [List.dropWhile, h]

/-- A string equals the empty string exactly when its character list is empty. -/
theorem str_eq_empty_iff (s : String) : s = "" ↔ s.data = [] := by
  cases s with
  | mk d =>
    constructor
    · intro h
      have h2 : (String.mk d).data = ("" : String).data := by rw [h]
      simpa using h2
    · intro h
      have h2 : d = [] := by simpa using h
      rw [h2]

/-- Structural decomposition: a list is a whitespace block, then its
stripped core, then a whitespace block. -/
theorem stripData_decomp (l : List Char) :
    ∃ P S, l = P ++ stripData l ++ S ∧
      (∀ c ∈ P, c.isWhitespace = true) ∧ (∀ c ∈ S, c.isWhitespace = true) := by
  refine ⟨l.takeWhile Char.isWhitespace,
    ((l.dropWhile Char.isWhitespace).reverse.takeWhile Char.isWhitespace).reverse,
    ?_, ?_, ?_⟩
  · have h1 :
        l.takeWhile Char.isWhitespace ++ l.dropWhile Char.isWhitespace = l :=
      List.takeWhile_append_dropWhile _ _
    have h2 :
        (l.dropWhile Char.isWhitespace).reverse.takeWhile Char.isWhitespace ++
          (l.dropWhile Char.isWhitespace).reverse.dropWhile Char.isWhitespace =
          (l.dropWhile Char.isWhitespace).reverse :=
      List.takeWhile_append_dropWhile _ _
    have h3 : l.dropWhile Char.isWhitespace =
        stripData l ++
        ((l.dropWhile Char.isWhitespace).reverse.takeWhile Char.isWhitespace).reverse := by
      have h4 := congrArg List.reverse h2
      simp only [List.reverse_append, List.reverse_reverse] at h4
      rw [stripData]
      exact h4.symm
    conv_lhs => rw [← h1, h3]
    simp [List.append_assoc]
  · intro c hc
    exact List.mem_takeWhile_imp hc
  · intro c hc
    rw [List.mem_reverse] at hc
    exact List.mem_takeWhile_imp hc

/-- The stripped core is empty exactly when the list is all whitespace. -/
theorem stripData_eq_nil_iff (l : List Char) :
    stripData l = [] ↔ ∀ c ∈ l, c.isWhitespace = true := by
  constructor
  · intro h c hc
    obtain ⟨P, S, hdec, hP, hS⟩ := stripData_decomp l
    rw [hdec] at hc
    rw [h] at hc
    simp only [List.append_nil, List.mem_append] at hc
    rcases hc with hc | hc
    · exact hP c hc
    · exact hS c hc
  · intro h
    have hdw : l.dropWhile Char.isWhitespace = [] :=
      List.dropWhile_eq_nil_iff.mpr (fun c hc => h c hc)
    simp [stripData, hdw]

/-- Stripping a stripped non-empty string leaves it non-empty. -/
theorem strip_strip_ne (s : String) (h : strip s ≠ "") : strip (strip s) ≠ "" := by
  intro hcon
  apply h
  rw [str_eq_empty_iff] at hcon ⊢
  have hd : stripData (stripData s.data) = [] := hcon
  have hall : ∀ c ∈ stripData s.data, c.isWhitespace = true :=
    (stripData_eq_nil_iff _).mp hd
  show stripData s.data = []
  obtain ⟨P, S, hdec, hP, hS⟩ := stripData_decomp s.data
  refine (stripData_eq_nil_iff _).mpr ?_
  intro c hc
  rw [hdec] at hc
  simp only [List.mem_append] at hc
  rcases hc with (hc | hc) | hc
  · exact hP c hc
  · exact hall c hc
  · exact hS c hc

/-- If `t` strips to a non-empty string, so does any extension `x ++ t`. -/
theorem strip_append_ne (x t : String) (h : strip t ≠ "") :
    strip (x ++ t) ≠ "" := by
  cases x with
  | mk xd =>
    cases t with
    | mk td =>
      intro hcon
      apply h
      rw [str_eq_empty_iff] at hcon ⊢
      have hd : stripData (xd ++ td) = [] := hcon
      have hall : ∀ c ∈ xd ++ td, c.isWhitespace = true :=
        (stripData_eq_nil_iff _).mp hd
      show stripData td = []
      refine (stripData_eq_nil_iff _).mpr ?_
      intro c hc
      exact hall c (List.mem_append_right _ hc)

end StrOps

namespace Splitter

open StrOps

/-!
Modelled from the spec: the boundary-aware recursive text splitter is
provided by an external text-splitting library (it is not part of this
repository's sources).  Per the spec it "recursively split[s] on a
priority-ordered list of boundary separators ... always preferring the
highest-priority separator", keeps the separator attached to the start of
the following piece, merges small pieces up to `chunkSize` characters and
carries `chunkOverlap` characters of overlap between consecutive merged
pieces, stripping whitespace from each emitted piece and dropping pieces
that become empty.
-/

/-- Pick the first separator of the priority list that occurs in `text`
(the empty separator always matches); fall back to the last separator.
Returns the chosen separator and the lower-priority remainder used for
recursive re-splitting of oversized pieces. -/
def chooseSeparator (text : String) : List String → String × List String
  | [] => ("", [])
  | [s] => (s, [])
  | s :: rest =>
    if s = "" then (s, [])
    else if occursIn s text then (s, rest)
    else chooseSeparator text rest

/-- Split at the separator, keeping each separator occurrence attached to
the start of the following piece; empty pieces are discarded.  The empty
separator splits into single characters. -/
def splitWithSep (sep text : String) : List String :=
  if sep = "" then text.data.map (fun c => String.mk [c])
  else
    match splitOnS sep text with
    | [] => []
    | t0 :: ts => (t0 :: ts.map (fun t => sep ++ t)).filter (fun s => !(s == ""))

/-- Join accumulated pieces (empty join separator), strip whitespace, and
drop the result when empty. -/
def joinDocs (docs : List String) : Option String :=
  let text := strip (docs.foldl (fun a b => a ++ b) "")
  if text = "" then none else some text

/-- Pop pieces from the front of the running window while it exceeds the
overlap, or while it cannot accommodate the incoming piece. -/
def popWhile (ov cs lenD : Nat) : List String → Nat → List String × Nat
  | [], total => ([], total)
  | c :: cdoc, total =>
    if ov < total ∨ (cs < total + lenD ∧ 0 < total) then
      popWhile ov cs lenD cdoc (total - c.length)
    else (c :: cdoc, total)

/-- Merge small pieces into chunks of at most `cs` characters with `ov`
characters of overlap carried between consecutive chunks. -/
def mergeLoop (cs ov : Nat) : List String → List String → Nat → List String → List String
  | [], current, _, docs =>
    (match joinDocs current with
     | some doc => docs ++ [doc]
     | none => docs)
  | d :: rest, current, total, docs =>
    if cs < total + d.length then
      if current = [] then
        mergeLoop cs ov rest (current ++ [d]) (total + d.length) docs
      else
        mergeLoop cs ov rest
          ((popWhile ov cs d.length current total).1 ++ [d])
          ((popWhile ov cs d.length current total).2 + d.length)
          (match joinDocs current with
           | some doc => docs ++ [doc]
           | none => docs)
    else mergeLoop cs ov rest (current ++ [d]) (total + d.length) docs

/-- The recursive splitting loop: process the split pieces in order —
small pieces accumulate and are merged; an oversized piece first flushes
the accumulator, then is re-split with the lower-priority separators (or
emitted as-is when none remain).  Written with a structurally decreasing
fuel (one unit per processed piece) so that it reduces inside the kernel;
`splitText` supplies fuel exceeding the total number of processed pieces
over all recursion levels, so the exhaustion branch is never taken. -/
def splitFuel (cs ov : Nat) : Nat → List String → List String → List String → List String
  | 0, _, _, goods => mergeLoop cs ov goods.reverse [] 0 []
  | Nat.succ fuel, newSeps, splits, goods =>
    match splits with
    | [] => mergeLoop cs ov goods.reverse [] 0 []
    | s :: rest =>
      if s.length < cs then splitFuel cs ov fuel newSeps rest (s :: goods)
      else
        (if goods = [] then [] else mergeLoop cs ov goods.reverse [] 0 []) ++
        (if newSeps = [] then [s]
         else splitFuel cs ov fuel (chooseSeparator s newSeps).2
           (splitWithSep (chooseSeparator s newSeps).1 s) []) ++
        splitFuel cs ov fuel newSeps rest []

/-- The full `split_text` of the library splitter: choose the separator,
split, then process the pieces. -/
def splitText (cs ov : Nat) (seps : List String) (text : String) : List String :=
  splitFuel cs ov ((seps.length + 1) * (text.length + 2))
    (chooseSeparator text seps).2
    (splitWithSep (chooseSeparator text seps).1 text) []

/-- A piece the splitter may emit: non-empty and already stripped. -/
def GoodPiece (p : String) : Prop := p ≠ "" ∧ ∃ j, p = strip j

theorem GoodPiece.strip_ne {p : String} (h : GoodPiece p) : strip p ≠ "" := by
  obtain ⟨hne, j, hj⟩ := h
  rw [hj] at hne ⊢
  exact strip_strip_ne j hne

theorem joinDocs_good {docs : List String} {doc : String}
    (h : joinDocs docs = some doc) : GoodPiece doc := by
  unfold joinDocs at h
  by_cases hempty : strip (docs.foldl (fun a b => a ++ b) "") = ""
  · simp [hempty] at h
  · simp [hempty] at h
    exact ⟨h ▸ hempty, docs.foldl (fun a b => a ++ b) "", h.symm⟩

theorem mergeLoop_mem (cs ov : Nat) :
    ∀ splits current total docs p, p ∈ mergeLoop cs ov splits current total docs →
      p ∈ docs ∨ GoodPiece p := by
  intro splits
  induction splits with
  | nil =>
    intro current total docs p hp
    unfold mergeLoop at hp
    cases hj : joinDocs current with
    | none => rw [hj] at hp; exact Or.inl hp
    | some doc =>
      rw [hj] at hp
      rcases List.mem_append.mp hp with h | h
      · exact Or.inl h
      · simp at h
        exact Or.inr (h ▸ joinDocs_good hj)
  | cons d rest ih =>
    intro current total docs p hp
    unfold mergeLoop at hp
    by_cases hfit : cs < total + d.length
    · rw [if_pos hfit] at hp
      by_cases hcur : current = []
      · rw [if_pos hcur] at hp
        exact ih _ _ _ p hp
      · rw [if_neg hcur] at hp
        cases hj : joinDocs current with
        | none =>
          rw [hj] at hp
          exact ih _ _ _ p hp
        | some doc =>
          rw [hj] at hp
          rcases ih _ _ _ p hp with h | h
          · rcases List.mem_append.mp h with h2 | h2
            · exact Or.inl h2
            · simp at h2
              exact Or.inr (h2 ▸ joinDocs_good hj)
          · exact Or.inr h
    · rw [if_neg hfit] at hp
      exact ih _ _ _ p hp

theorem chooseSeparator_spec (text : String) :
    ∀ seps : List String, seps.getLast? = some "" →
      ((chooseSeparator text seps).2 = [] → (chooseSeparator text seps).1 = "") ∧
      ((chooseSeparator text seps).2 ≠ [] →
        (chooseSeparator text seps).2.getLast? = some "") := by
  intro seps
  induction seps with
  | nil => intro h; simp at h
  | cons s rest ih =>
    intro hlast
    cases rest with
    | nil =>
      simp at hlast
      exact ⟨fun _ => by simp [chooseSeparator, hlast], fun h => by
        simp [chooseSeparator] at h⟩
    | cons s2 rest2 =>
      have hlast2 : (s2 :: rest2).getLast? = some "" := by
        rwa [List.getLast?_cons_cons] at hlast
      by_cases hs : s = ""
      · constructor
        · intro _
          simp [chooseSeparator, hs]
        · intro hcon
          simp [chooseSeparator, hs] at hcon
      · by_cases hocc : occursIn s text = true
        · constructor
          · intro hcon
            simp [chooseSeparator, hs, hocc] at hcon
          · intro _
            simp [chooseSeparator, hs, hocc, hlast2]
        · have heq : chooseSeparator text (s :: s2 :: rest2) =
              chooseSeparator text (s2 :: rest2) := by
            simp [chooseSeparator, hs, hocc]
          rw [heq]
          exact ih hlast2

theorem splitWithSep_len_one {text : String} :
    ∀ s ∈ splitWithSep "" text, s.length = 1 := by
  intro s hs
  unfold splitWithSep at hs
  simp at hs
  obtain ⟨c, _, hc⟩ := hs
  rw [← hc]
  rfl

theorem splitFuel_good (cs ov : Nat) (hcs : 2 ≤ cs) :
    ∀ (fuel : Nat) (newSeps splits goods : List String),
      (newSeps = [] → ∀ s ∈ splits, s.length < cs) →
      (newSeps ≠ [] → newSeps.getLast? = some "") →
      ∀ p ∈ splitFuel cs ov fuel newSeps splits goods, GoodPiece p := by
  intro fuel
  induction fuel with
  | zero =>
    intro newSeps splits goods _ _ p hp
    simp only [splitFuel] at hp
    rcases mergeLoop_mem cs ov _ _ _ _ p hp with h | h
    · simp at h
    · exact h
  | succ n ih =>
    intro newSeps splits goods hsmall hlast p hp
    cases splits with
    | nil =>
      simp only [splitFuel] at hp
      rcases mergeLoop_mem cs ov _ _ _ _ p hp with h | h
      · simp at h
      · exact h
    | cons s rest =>
      simp only [splitFuel] at hp
      by_cases hlen : s.length < cs
      · rw [if_pos hlen] at hp
        exact ih _ _ _ (fun h0 t ht => hsmall h0 t (List.mem_cons_of_mem _ ht))
          hlast p hp
      · rw [if_neg hlen] at hp
        rcases List.mem_append.mp hp with hp1 | hp2
        · rcases List.mem_append.mp hp1 with hflush | hdeep
          · by_cases hg : goods = []
            · rw [if_pos hg] at hflush
              simp at hflush
            · rw [if_neg hg] at hflush
              rcases mergeLoop_mem cs ov _ _ _ _ p hflush with h | h
              · simp at h
              · exact h
          · by_cases hns : newSeps = []
            · rw [if_pos hns] at hdeep
              simp at hdeep
              exact absurd (hdeep ▸ hsmall hns s (List.mem_cons_self _ _)) hlen
            · rw [if_neg hns] at hdeep
              obtain ⟨h1, h2⟩ := chooseSeparator_spec s newSeps (hlast hns)
              refine ih _ _ _ ?_ h2 p hdeep
              intro hnil t ht
              rw [h1 hnil] at ht
              have := splitWithSep_len_one t ht
              omega
        · exact ih _ _ _ (fun h0 t ht => hsmall h0 t (List.mem_cons_of_mem _ ht))
            hlast p hp2

/-- Every piece emitted by the splitter (for a separator list ending in
the empty separator, chunk size at least 2) is non-empty and stripped. -/
theorem splitText_good (cs ov : Nat) (seps : List String) (text : String)
    (hcs : 2 ≤ cs) (hlast : seps.getLast? = some "") :
    ∀ p ∈ splitText cs ov seps text, GoodPiece p := by
  intro p hp
  unfold splitText at hp
  obtain ⟨h1, h2⟩ := chooseSeparator_spec text seps hlast
  refine splitFuel_good cs ov hcs _ _ _ _ ?_ h2 p hp
  intro hnil t ht
  rw [h1 hnil] at ht
  have := splitWithSep_len_one t ht
  omega

end Splitter

namespace SmartChunker

open StrOps Splitter

/-- Configuration of `MarkdownDocumentChunker.__init__`; the defaults are
the values `QdrantOfficialHybridStore` passes. -/
structure ChunkerCfg where
  base_chunk_size : Nat := 1200
  chunk_overlap : Nat := 150
  min_chunk_size : Nat := 100
  max_chunk_size : Nat := 2000
  table_max_size : Nat := 3000
  deriving DecidableEq

/-- The configuration the vector store instantiates. -/
def prodCfg : ChunkerCfg := {}

/-- Separator priority list of `self.text_splitter`. -/
def baseSeparators : List String :=
  ["\n\n\n", "\n\n", "\n# ", "\n## ", "\n### ", ". ", ";\n", ", ", "\n", " ", ""]

/-- Separator priority list of `self.adaptive_splitters["technical"]`. -/
def technicalSeparators : List String := ["\n\n\n", "\n\n", ". ", "\n", " ", ""]

/-- Separator priority list of `self.adaptive_splitters["narrative"]`. -/
def narrativeSeparators : List String := ["\n\n", ". ", "\n", " ", ""]

/-- A table entry of a page (`table["metadata"]["title"/"caption"]`,
`table["content"]`); an absent or null text field is the empty string,
except `content`, whose null is observable (`table.get("content") or ""`). -/
structure TableData where
  title : String := ""
  caption : String := ""
  content : Option String := none
  deriving DecidableEq

/-- A figure entry of a page (absent fields default to the empty string,
which the code treats identically to null here). -/
structure FigureData where
  title : String := ""
  caption : String := ""
  content : String := ""
  deriving DecidableEq

/-- A page of the parsed markdown document. -/
structure PageData where
  markdown_content : Option String := none
  content : Option String := none
  language : Option String := none
  tables : List (Option TableData) := []
  figures : List (Option FigureData) := []
  deriving DecidableEq

/-- The parsed `MarkdownDocument` JSON. -/
structure MarkdownDoc where
  pages : List PageData
  deriving DecidableEq

/-- Result of `_analyze_document_complexity`. -/
structure DocAnalysis where
  avg_words_per_page : ℚ
  table_count : Nat
  figure_count : Nat
  heading_count : Nat
  structured_share : ℚ
  total_pages : Nat
  is_structured_document : Bool
  deriving DecidableEq

/-- Page content as read by `_analyze_document_complexity`:
`page.get("markdown_content", "") or page.get("content", "")`. -/
def analyzeContent (p : PageData) : String :=
  if p.markdown_content.getD "" = "" then p.content.getD "" else p.markdown_content.getD ""

/-- `_analyze_document_complexity` (`structured_share` is the source's
`structured_content_ratio`).  The two rationals are built with `mkRat` so
concrete values reduce: `avg_words_per_page` is exactly
`total_length / max(pages, 1) / 5` and `structured_share` exactly
`(tables + figures) / max(pages, 1)`. -/
def analyzeDocumentComplexity (doc : MarkdownDoc) : DocAnalysis :=
  let totalLength : Nat := (doc.pages.map (fun p => (analyzeContent p).length)).sum
  let tableCount : Nat := (doc.pages.map (fun p => p.tables.length)).sum
  let figureCount : Nat := (doc.pages.map (fun p => p.figures.length)).sum
  let headingCount : Nat := (doc.pages.map (fun p => countSub ("#") (analyzeContent p))).sum
  let nPages : Nat := doc.pages.length
  let share : ℚ := mkRat (Int.ofNat (tableCount + figureCount)) (max nPages 1)
  { avg_words_per_page := mkRat (Int.ofNat totalLength) (5 * max nPages 1)
    table_count := tableCount
    figure_count := figureCount
    heading_count := headingCount
    structured_share := share
    total_pages := nPages
    is_structured_document := decide (mkRat 1 2 < share) || decide (20 < headingCount) }

/-- A markdown heading found by `_extract_headings`. -/
structure Heading where
  level : Nat
  text : String
  line_index : Nat
  deriving DecidableEq

/-- `_extract_headings`. -/
def extractHeadings (content : String) : List Heading :=
  (splitOnS ("\n") content).enum.filterMap (fun li =>
    let line := strip li.2
    if startsWithS ("#") line then
      let headingText := strip (lstripHash line)
      if headingText = "" then none
      else some { level := line.length - (lstripHash line).length
                  text := headingText
                  line_index := li.1 }
    else none)

/-- `_find_relevant_heading`. -/
def findRelevantHeading (chunkText : String) (hs : List Heading) : Option String :=
  match hs with
  | [] => none
  | h0 :: _ =>
    match hs.reverse.find? (fun h => occursIn h.text.toLower chunkText.toLower) with
    | some h => some h.text
    | none => some h0.text

/-- `content.strip().endswith((".", "!", "?", ":"))`. -/
def sentenceEnd (t : String) : Bool :=
  endsWithS (".") t || endsWithS ("!") t || endsWithS ("?") t || endsWithS (":") t

/-- `content.strip().startswith(marker)` for the list/heading markers. -/
def listMarkerStart (t : String) : Bool :=
  startsWithS ("#") t || startsWithS ("-") t || startsWithS ("*") t ||
  startsWithS ("1.") t || startsWithS ("2.") t || startsWithS ("3.") t

/-- `content.count("...") > 2 or content.count("[truncated]") > 0`. -/
def hasTruncMarkers (content : String) : Bool :=
  decide (2 < countSub ("...") content) || decide (0 < countSub ("[truncated]") content)

/-- The score arithmetic of `_calculate_content_quality`: every summand
is an exact multiple of 0.1, so the running score is computed in integer
tenths — 0.5 is 5, +0.2 is +2, and so on — and `min(1.0, max(0.1, s))`
becomes the clamp to [1, 10]. -/
def qualityTenths (content : String) : Int :=
  let s0 : Int := 5
  let s1 := if sentenceEnd (strip content) then s0 + 2 else s0
  let s2 := if listMarkerStart (strip content) then s1 + 1 else s1
  let s3 := if 800 < (strip content).length then s2 + 1 else s2
  let s4 := if hasTruncMarkers content then s3 - 3 else s3
  let lo := if s4 < 1 then 1 else s4
  if 10 < lo then 10 else lo

/-- `_calculate_content_quality` (floats as exact rationals). -/
def calcContentQuality (content : String) : ℚ :=
  mkRat (qualityTenths content) 10

/-- `_is_complete_section`. -/
def isCompleteSection (content : String) : Bool :=
  let t := strip content
  (startsWithS ("#") t || startsWithS ("##") t || startsWithS ("###") t) &&
    sentenceEnd t && decide (500 < t.length)

/-- `_get_complexity_level`. -/
def getComplexityLevel (a : DocAnalysis) : String :=
  if mkRat 1 2 < a.structured_share ∨ mkRat 1000 1 < a.avg_words_per_page then "high"
  else if mkRat 1 5 < a.structured_share ∨ mkRat 500 1 < a.avg_words_per_page then "medium"
  else "low"

/-- A produced chunk: `page_content` plus its metadata dictionary.  Fields
that a given path does not write are `none`; `heading_context` merges the
source's absent key and present-but-null value into `none`. -/
structure Chunk where
  content : String
  document_id : String
  filename : String
  page_number : Nat
  chunk_index : Nat
  content_type : String
  language : String
  chunk_size : Nat
  chunk_id : String
  original_chunk_ref : String
  heading_context : Option String := none
  quality_score : Option ℚ := none
  is_complete_section : Option Bool := none
  is_structured_document : Option Bool := none
  document_complexity : Option String := none
  table_index : Option Nat := none
  table_title : Option String := none
  table_caption : Option String := none
  is_complete_table : Option Bool := none
  table_part : Option String := none
  figure_index : Option Nat := none
  figure_title : Option String := none
  figure_caption : Option String := none
  deriving DecidableEq

/-- The `Document` built for one kept text piece in
`_chunk_text_content_adaptive`. -/
def mkTextChunk (a : DocAnalysis) (docId fn lang : String) (pageIdx idx : Nat)
    (uid t : String) (headings : List Heading) : Chunk :=
  { content := t
    document_id := docId
    filename := fn
    page_number := pageIdx
    chunk_index := idx
    content_type := "text"
    language := lang
    heading_context := findRelevantHeading t headings
    chunk_size := t.length
    chunk_id := uid
    original_chunk_ref := docId ++ "_p" ++ toString pageIdx ++ "_c" ++ toString idx
    quality_score := some (calcContentQuality t)
    is_complete_section := some (isCompleteSection t)
    is_structured_document := some a.is_structured_document
    document_complexity := some (getComplexityLevel a) }

/-- The piece loop of `_chunk_text_content_adaptive`: pieces that are
empty or whose stripped length is below `min_chunk_size` are skipped;
`idx` is the enumeration index, `n` the uuid draw counter. -/
def textChunksGo (cfg : ChunkerCfg) (a : DocAnalysis) (docId fn lang : String)
    (pageIdx : Nat) (u : Nat → String) (headings : List Heading) :
    Nat → Nat → List String → List Chunk × Nat
  | n, _, [] => ([], n)
  | n, idx, t :: ts =>
    if t = "" ∨ (strip t).length < cfg.min_chunk_size then
      textChunksGo cfg a docId fn lang pageIdx u headings n (idx + 1) ts
    else
      ((mkTextChunk a docId fn lang pageIdx idx (u n) t headings) ::
        (textChunksGo cfg a docId fn lang pageIdx u headings (n + 1) (idx + 1) ts).1,
       (textChunksGo cfg a docId fn lang pageIdx u headings (n + 1) (idx + 1) ts).2)

/-- Splitter selection of `_chunk_text_content_adaptive`
(chunk size, overlap, separators). -/
def pickSplitter (cfg : ChunkerCfg) (a : DocAnalysis) : Nat × Nat × List String :=
  if a.is_structured_document = true ∨ mkRat 800 1 < a.avg_words_per_page then
    (1500, 200, technicalSeparators)
  else if a.avg_words_per_page < mkRat 400 1 then (1000, 150, narrativeSeparators)
  else (cfg.base_chunk_size, cfg.chunk_overlap, baseSeparators)

/-- `_chunk_text_content_adaptive` (the call site always passes
content type `"text"`). -/
def chunkTextContentAdaptive (cfg : ChunkerCfg) (a : DocAnalysis) (u : Nat → String)
    (n : Nat) (content docId fn : String) (pageIdx : Nat) (lang : String) :
    List Chunk × Nat :=
  let headings := extractHeadings content
  let sp := pickSplitter cfg a
  textChunksGo cfg a docId fn lang pageIdx u headings n 0
    (splitText sp.1 sp.2.1 sp.2.2 content)

/-- `full_table_content`: optional title line, optional caption line, a
newline, then the stripped table body. -/
def assembleTable (table : TableData) (tableIdx : Nat) : String :=
  (if table.title = "" then ""
   else "Table " ++ toString (tableIdx + 1) ++ ": " ++ table.title ++ "\n") ++
  (if table.caption = "" then "" else "Caption: " ++ table.caption ++ "\n") ++
  "\n" ++ strip (table.content.getD "")

/-- The single chunk of a table that fits within `table_max_size`. -/
def mkCompleteTableChunk (uid full docId fn lang : String) (pageIdx tableIdx : Nat)
    (title caption : String) : Chunk :=
  { content := full
    document_id := docId
    filename := fn
    page_number := pageIdx
    chunk_index := 0
    content_type := "table"
    language := lang
    chunk_size := full.length
    chunk_id := uid
    original_chunk_ref := docId ++ "_p" ++ toString pageIdx ++ "_t" ++ toString tableIdx
    table_index := some tableIdx
    table_title := some title
    table_caption := some caption
    is_complete_table := some true
    quality_score := some (mkRat 9 10) }

/-- One piece of a table that had to be split. -/
def mkTablePartChunk (uid t docId fn lang : String) (pageIdx tableIdx idx total : Nat)
    (title caption : String) : Chunk :=
  { content := t
    document_id := docId
    filename := fn
    page_number := pageIdx
    chunk_index := idx
    content_type := "table"
    language := lang
    chunk_size := t.length
    chunk_id := uid
    original_chunk_ref := docId ++ "_p" ++ toString pageIdx ++ "_t" ++
      toString tableIdx ++ "_c" ++ toString idx
    table_index := some tableIdx
    table_title := some title
    table_caption := some caption
    is_complete_table := some false
    table_part := some ("Part " ++ toString (idx + 1) ++ " of " ++ toString total)
    quality_score := some (mkRat 3 5) }

/-- The piece loop of the oversized-table branch (every piece is kept). -/
def tablePartsGo (docId fn lang title caption : String)
    (pageIdx tableIdx total : Nat) (u : Nat → String) :
    Nat → Nat → List String → List Chunk × Nat
  | n, _, [] => ([], n)
  | n, idx, t :: ts =>
    ((mkTablePartChunk (u n) t docId fn lang pageIdx tableIdx idx total title caption) ::
      (tablePartsGo docId fn lang title caption pageIdx tableIdx total u (n + 1) (idx + 1) ts).1,
     (tablePartsGo docId fn lang title caption pageIdx tableIdx total u (n + 1) (idx + 1) ts).2)

/-- `_chunk_table_preserving`. -/
def chunkTablePreserving (cfg : ChunkerCfg) (u : Nat → String) (n : Nat)
    (table : TableData) (tableIdx : Nat) (docId fn : String) (pageIdx : Nat)
    (lang : String) : List Chunk × Nat :=
  if strip (table.content.getD "") = "" then ([], n)
  else
    let full := assembleTable table tableIdx
    if full.length ≤ cfg.table_max_size then
      ([mkCompleteTableChunk (u n) full docId fn lang pageIdx tableIdx
          table.title table.caption], n + 1)
    else
      tablePartsGo docId fn lang table.title table.caption pageIdx tableIdx
        (splitText cfg.base_chunk_size cfg.chunk_overlap baseSeparators full).length
        u n 0
        (splitText cfg.base_chunk_size cfg.chunk_overlap baseSeparators full)

/-- `full_figure_content`. -/
def assembleFigure (figure : FigureData) : String :=
  (if figure.title = "" then "" else "Figure: " ++ figure.title ++ "\n") ++
  (if figure.caption = "" then "" else "Caption: " ++ figure.caption ++ "\n") ++
  (if figure.content = "" then "" else "Description: " ++ figure.content)

/-- The single chunk of a figure; no `quality_score` key is written on
this path. -/
def mkFigureChunk (uid full docId fn lang : String) (pageIdx figureIdx : Nat)
    (title caption : String) : Chunk :=
  { content := full
    document_id := docId
    filename := fn
    page_number := pageIdx
    chunk_index := 0
    content_type := "figure"
    language := lang
    chunk_size := full.length
    chunk_id := uid
    original_chunk_ref := docId ++ "_p" ++ toString pageIdx ++ "_f" ++
      toString figureIdx
    figure_index := some figureIdx
    figure_title := some title
    figure_caption := some caption }

/-- `_chunk_figure`. -/
def chunkFigure (u : Nat → String) (n : Nat) (figure : FigureData)
    (figureIdx : Nat) (docId fn : String) (pageIdx : Nat) (lang : String) :
    Option Chunk × Nat :=
  let full := assembleFigure figure
  if full = "" ∨ strip full = "" then (none, n)
  else
    (some (mkFigureChunk (u n) full docId fn lang pageIdx figureIdx
      figure.title figure.caption), n + 1)

/-- The table loop of `_chunk_page`: the enumeration index advances over
null entries, which contribute nothing. -/
def tablesGo (cfg : ChunkerCfg) (u : Nat → String) (docId fn : String)
    (pageIdx : Nat) (lang : String) :
    Nat → Nat → List (Option TableData) → List Chunk × Nat
  | n, _, [] => ([], n)
  | n, tIdx, none :: ts => tablesGo cfg u docId fn pageIdx lang n (tIdx + 1) ts
  | n, tIdx, some t :: ts =>
    ((chunkTablePreserving cfg u n t tIdx docId fn pageIdx lang).1 ++
      (tablesGo cfg u docId fn pageIdx lang
        (chunkTablePreserving cfg u n t tIdx docId fn pageIdx lang).2 (tIdx + 1) ts).1,
     (tablesGo cfg u docId fn pageIdx lang
       (chunkTablePreserving cfg u n t tIdx docId fn pageIdx lang).2 (tIdx + 1) ts).2)

/-- The figure loop of `_chunk_page`. -/
def figuresGo (u : Nat → String) (docId fn : String) (pageIdx : Nat)
    (lang : String) : Nat → Nat → List (Option FigureData) → List Chunk × Nat
  | n, _, [] => ([], n)
  | n, fIdx, none :: fs => figuresGo u docId fn pageIdx lang n (fIdx + 1) fs
  | n, fIdx, some f :: fs =>
    ((match (chunkFigure u n f fIdx docId fn pageIdx lang).1 with
      | some c => c ::
          (figuresGo u docId fn pageIdx lang
            (chunkFigure u n f fIdx docId fn pageIdx lang).2 (fIdx + 1) fs).1
      | none =>
          (figuresGo u docId fn pageIdx lang
            (chunkFigure u n f fIdx docId fn pageIdx lang).2 (fIdx + 1) fs).1),
     (figuresGo u docId fn pageIdx lang
       (chunkFigure u n f fIdx docId fn pageIdx lang).2 (fIdx + 1) fs).2)

/-- The page text selected by `_chunk_page`: stripped `markdown_content`,
falling back to stripped `content`. -/
def pageContent (p : PageData) : String :=
  if strip (p.markdown_content.getD "") = "" then strip (p.content.getD "")
  else strip (p.markdown_content.getD "")

/-- `_chunk_page`: text chunks, then table chunks, then figure chunks. -/
def chunkPage (cfg : ChunkerCfg) (a : DocAnalysis) (u : Nat → String) (n : Nat)
    (p : PageData) (pageIdx : Nat) (docId fn : String) : List Chunk × Nat :=
  let lang := p.language.getD "en"
  let tc : List Chunk × Nat :=
    if pageContent p = "" then ([], n)
    else chunkTextContentAdaptive cfg a u n (pageContent p) docId fn pageIdx lang
  let tb := tablesGo cfg u docId fn pageIdx lang tc.2 0 p.tables
  let fg := figuresGo u docId fn pageIdx lang tb.2 0 p.figures
  (tc.1 ++ tb.1 ++ fg.1, fg.2)

/-- The page loop of `chunk_markdown_document`. -/
def pagesGo (cfg : ChunkerCfg) (a : DocAnalysis) (u : Nat → String)
    (docId fn : String) : Nat → Nat → List PageData → List Chunk
  | _, _, [] => []
  | n, pageIdx, p :: ps =>
    (chunkPage cfg a u n p pageIdx docId fn).1 ++
      pagesGo cfg a u docId fn (chunkPage cfg a u n p pageIdx docId fn).2
        (pageIdx + 1) ps

/-- `chunk_markdown_document`: analyse the document once, then chunk each
page in order.  `u` supplies the `uuid.uuid4()` draws. -/
def chunkMarkdownDocument (cfg : ChunkerCfg) (u : Nat → String)
    (docId fn : String) (doc : MarkdownDoc) : List Chunk :=
  pagesGo cfg (analyzeDocumentComplexity doc) u docId fn 0 0 doc.pages

end SmartChunker

namespace QdrantStore

open StrOps SmartChunker

/-- The payload stored per point by `index_document`.  Chunk-metadata keys
outside the exclusion list are spread into the payload unchanged and
overwrite same-named keys (so `chunk_size` is the chunk's recorded size,
not the stripped length); spread-only keys that no modelled operation
reads are omitted here. -/
structure Payload where
  chunk_id : String
  document_id : String
  filename : String
  content : String
  content_type : String
  page_number : Nat
  chunk_index : Nat
  chunk_size : Nat
  language : String
  heading_context : Option String
  indexed_at : String
  deriving DecidableEq

/-- The payload built for one surviving chunk (`now` is
`datetime.now().isoformat()`). -/
def payloadOfChunk (now : String) (c : Chunk) : Payload :=
  { chunk_id := c.chunk_id
    document_id := c.document_id
    filename := c.filename
    content := strip c.content
    content_type := c.content_type
    page_number := c.page_number
    chunk_index := c.chunk_index
    chunk_size := c.chunk_size
    language := c.language
    heading_context := c.heading_context
    indexed_at := now }

/-- The embedding requests built by the chunk loop: chunks whose stripped
content is empty are skipped. -/
def survivingContents (chunks : List Chunk) : List String :=
  chunks.filterMap (fun c =>
    if strip c.content = "" then none else some (strip c.content))

/-- The payload list built by the chunk loop. -/
def payloadsOf (now : String) (chunks : List Chunk) : List Payload :=
  chunks.filterMap (fun c =>
    if strip c.content = "" then none else some (payloadOfChunk now c))

/-- The message of the exception `index_document` raises. -/
def indexFailMsg (e : String) : String := "Failed to index document: " ++ e

/-- `index_document`.  `docData = none` models falsy/`pages`-less input;
`upload` is the outcome of `client.upload_collection` (the only raising
call in the body); any raised error is wrapped by the fixed message. -/
def index_document (u : Nat → String) (now : String) (upload : Except String Unit)
    (document_id filename : String) (docData : Option MarkdownDoc) :
    Except String Nat :=
  match docData with
  | none => Except.ok 0
  | some doc =>
    if doc.pages = [] then Except.ok 0
    else
      let chunks := chunkMarkdownDocument prodCfg u document_id filename doc
      if chunks = [] then Except.ok 0
      else
        if survivingContents chunks = [] then Except.ok 0
        else
          match upload with
          | Except.error e => Except.error (indexFailMsg e)
          | Except.ok _ => Except.ok (survivingContents chunks).length

/-- A stored point of the backend collection. -/
structure StoredPoint where
  id : String
  payload : Payload
  deriving DecidableEq

/-- Modelled from the spec: the fixed constant `k` of the backend's
Reciprocal Rank Fusion (the fusion runs inside the external vector
database, not in this repository). -/
def rrfK : Nat := 2

/-- Modelled from the spec: `1 / (k + rank)` for the 1-based rank of the
point in one source ranking, `0` when absent. -/
def rankContrib (ranked : List StoredPoint) (p : StoredPoint) : ℚ :=
  match ranked.findIdx? (fun q => decide (q = p)) with
  | some i => mkRat 1 (rrfK + (i + 1))
  | none => 0

/-- Modelled from the spec: fused score is the sum of the per-source
reciprocal-rank contributions. -/
def rrfScore (dense sparse : List StoredPoint) (p : StoredPoint) : ℚ :=
  StrOps.qadd (rankContrib dense p) (rankContrib sparse p)

/-- Candidate union in insertion order (dense ranking first). -/
def fuseCandidates (dense sparse : List StoredPoint) : List StoredPoint :=
  dense ++ sparse.filter (fun p => !(decide (p ∈ dense)))

/-- Stable descending insertion by score: ties keep insertion order. -/
def insertDesc (score : StoredPoint → ℚ) (p : StoredPoint) :
    List StoredPoint → List StoredPoint
  | [] => [p]
  | q :: qs => if score q < score p then p :: q :: qs else q :: insertDesc score p qs

/-- Stable descending sort by score. -/
def sortDesc (score : StoredPoint → ℚ) : List StoredPoint → List StoredPoint
  | [] => []
  | p :: ps => insertDesc score p (sortDesc score ps)

/-- Modelled from the spec: the backend's fused two-source top-k query.
Results are the fused candidates ordered by descending fused score,
restricted by the score threshold only when the request carries one,
truncated to `limit`. -/
def queryPointsRRF (dense sparse : List StoredPoint) (limit : Nat)
    (threshold : Option ℚ) : List (StoredPoint × ℚ) :=
  let scored := (sortDesc (rrfScore dense sparse) (fuseCandidates dense sparse)).map
    (fun p => (p, rrfScore dense sparse p))
  (match threshold with
   | none => scored
   | some t => scored.filter (fun pr => decide (t ≤ pr.2))).take limit

/-- The leftover `metadata` map of a search-result dict (payload keys not
hoisted to the top level). -/
structure ResultMeta where
  chunk_id : String
  filename : String
  chunk_size : Nat
  language : String
  heading_context : Option String
  indexed_at : String
  deriving DecidableEq

/-- One entry of the list `hybrid_search` returns. -/
structure SearchResult where
  chunk_id : String
  score : ℚ
  search_type : String
  content : String
  document_id : String
  content_type : String
  page_number : Nat
  chunk_index : Nat
  metadata : ResultMeta
  deriving DecidableEq

/-- The result dict built from one returned point. -/
def mkSearchResult (pr : StoredPoint × ℚ) : SearchResult :=
  { chunk_id := pr.1.id
    score := pr.2
    search_type := "official_hybrid_rrf"
    content := pr.1.payload.content
    document_id := pr.1.payload.document_id
    content_type := pr.1.payload.content_type
    page_number := pr.1.payload.page_number
    chunk_index := pr.1.payload.chunk_index
    metadata := { chunk_id := pr.1.payload.chunk_id
                  filename := pr.1.payload.filename
                  chunk_size := pr.1.payload.chunk_size
                  language := pr.1.payload.language
                  heading_context := pr.1.payload.heading_context
                  indexed_at := pr.1.payload.indexed_at } }

/-- The `document_id` filter the code builds (its only filter: the
`chunk_types` parameter is never used). -/
def matchesFilter (docFilter : Option String) (p : StoredPoint) : Bool :=
  match docFilter with
  | none => true
  | some d => decide (p.payload.document_id = d)

/-- `hybrid_search`.  `dense`/`sparse` are the backend's prefetch
rankings for the query (produced by the external embedding services, so
given as inputs).  The code sends the request with the document filter
and `limit` but does not pass `score_threshold` to the backend (hence
`none` below) and never uses `chunk_types`; both parameters are accepted
and ignored. -/
def hybrid_search (dense sparse : List StoredPoint) (query : String)
    (document_id : Option String) (chunk_types : Option (List String))
    (limit : Nat) (score_threshold : ℚ) : List SearchResult :=
  (queryPointsRRF (dense.filter (matchesFilter document_id))
    (sparse.filter (matchesFilter document_id)) limit none).map mkSearchResult

end QdrantStore

namespace AgenticRag

open StrOps QdrantStore

/-- A message of the graph state; `role` models both the dict key
`"role"` and `BaseMessage.type` (tool messages have role `"tool"`). -/
structure Msg where
  role : String
  content : String
  deriving DecidableEq

/-- The LangChain `Document` the retriever builds from one search result
(metadata flattened into fields). -/
structure RetDoc where
  page_content : String
  chunk_id : String
  document_id : String
  content_type : String
  page_number : Nat
  chunk_index : Nat
  relevance_score : ℚ
  search_type : String
  source : String
  filename : String
  deriving DecidableEq

/-- The document built for one search result in
`HybridSearchRetriever.get_relevant_documents`. -/
def mkRetDoc (r : SearchResult) : RetDoc :=
  { page_content := r.content
    chunk_id := r.chunk_id
    document_id := r.document_id
    content_type := r.content_type
    page_number := r.page_number
    chunk_index := r.chunk_index
    relevance_score := r.score
    search_type := r.search_type
    source := "Document: " ++ r.metadata.filename ++ " (Page " ++
      toString (r.page_number + 1) ++ ")"
    filename := r.metadata.filename }

/-- `HybridSearchRetriever.get_relevant_documents`: returns the document
list and the new value of the `last_retrieved_docs` slot.  On success the
slot is replaced by the fresh documents; on any search failure the method
returns `[]` and resets the slot to `[]`; the previous slot value
`prevSlot` is never read. -/
def get_relevant_documents (searchOutcome : Except String (List SearchResult))
    (prevSlot : List RetDoc) : List RetDoc × List RetDoc :=
  match searchOutcome with
  | Except.error _ => ([], [])
  | Except.ok rs => (rs.map mkRetDoc, rs.map mkRetDoc)

/-- The two outgoing routes of the grading step. -/
inductive Route where
  | generate_answer
  | rewrite_question
  deriving DecidableEq

/-- The `context` extraction of `_grade_documents`: content of the last
tool message, `""` when there is none. -/
def lastToolContext (msgs : List Msg) : String :=
  match msgs.reverse.find? (fun m => m.role == "tool") with
  | some m => m.content
  | none => ""

/-- `_grade_documents` as a function of the state and the grader's
structured `binary_score` output (the grader is only consulted when a
context is present). -/
def grade_documents (msgs : List Msg) (graderJudgment : String) : Route :=
  if lastToolContext msgs = "" then Route.rewrite_question
  else if graderJudgment = "yes" then Route.generate_answer
  else Route.rewrite_question

/-- One entry of the `sources` list of an answer. -/
structure SourceRef where
  content_preview : String
  source_document : String
  content_type : String
  page_number : Nat
  chunk_index : Nat
  relevance_score : ℚ
  document_id : String
  chunk_id : String
  search_type : String
  deriving DecidableEq

/-- `doc.page_content[:300] + "..."` when longer than 300 characters. -/
def previewOf (content : String) : String :=
  if 300 < content.length then takeS 300 content ++ "..." else content

/-- The source entry built from one stored retriever document. -/
def sourceOfDoc (d : RetDoc) : SourceRef :=
  { content_preview := previewOf d.page_content
    source_document := d.source
    content_type := d.content_type
    page_number := d.page_number
    chunk_index := d.chunk_index
    relevance_score := d.relevance_score
    document_id := d.document_id
    chunk_id := d.chunk_id
    search_type := d.search_type }

/-- The legacy fallback source entry parsed from a tool message. -/
def fallbackSource (content : String) : SourceRef :=
  { content_preview := previewOf content
    source_document := "Retrieved from document search"
    content_type := "text"
    page_number := 0
    chunk_index := 0
    relevance_score := mkRat 17 20
    document_id := ""
    chunk_id := ""
    search_type := "unknown" }

/-- `_extract_sources_from_tool_messages`: up to 5 entries from the
retriever's stored documents, else the first non-empty tool message. -/
def extract_sources (slot : List RetDoc) (messages : List Msg) : List SourceRef :=
  let primary := if slot = [] then [] else (slot.take 5).map sourceOfDoc
  if primary = [] then
    match messages.find? (fun m => m.role == "tool" && !(m.content == "")) with
    | some m => [fallbackSource m.content]
    | none => []
  else primary

/-- The dict `ask_question` returns. -/
structure RagResponse where
  answer : String
  sources : List SourceRef
  conversation : List Msg
  session_id : String
  deriving DecidableEq

/-- The fixed apologetic answer of the error handler. -/
def fallbackAnswer : String :=
  "I apologize, but I encountered an error while processing your question. Please try again."

/-- The dict returned when anything inside the `try` block raises. -/
def fallbackResponse (question sessionId : String) : RagResponse :=
  { answer := fallbackAnswer
    sources := []
    conversation := [{ role := "user", content := question }]
    session_id := sessionId }

/-- `ask_question`.  `graphBuilt` is `self.graph is not None`;
`invokeOutcome` is the outcome of `self.graph.invoke` (the language-model
and retrieval calls happen inside it); `slot` is the retriever's
`last_retrieved_docs`.  Reading `result["messages"][-1]` of an empty list
raises and is caught by the same handler. -/
def ask_question (graphBuilt : Bool) (invokeOutcome : Except String (List Msg))
    (slot : List RetDoc) (question sessionId : String) :
    Except String RagResponse :=
  if graphBuilt = false then
    Except.error "RAG system not initialized. Call setup_for_all_documents() first."
  else
    match invokeOutcome with
    | Except.error _ => Except.ok (fallbackResponse question sessionId)
    | Except.ok msgs =>
      match msgs.getLast? with
      | none => Except.ok (fallbackResponse question sessionId)
      | some finalMsg =>
        Except.ok { answer := finalMsg.content
                    sources := extract_sources slot msgs
                    conversation := msgs
                    session_id := sessionId }

end AgenticRag

namespace SmartChunker

open StrOps Splitter

theorem textChunksGo_mem {cfg : ChunkerCfg} {a : DocAnalysis}
    {docId fn lang : String} {pageIdx : Nat} {u : Nat → String}
    {headings : List Heading} :
    ∀ (pieces : List String) (n idx : Nat) (c : Chunk),
      c ∈ (textChunksGo cfg a docId fn lang pageIdx u headings n idx pieces).1 →
      ∃ n2 idx2 t, ¬(t = "" ∨ (strip t).length < cfg.min_chunk_size) ∧
        c = mkTextChunk a docId fn lang pageIdx idx2 (u n2) t headings := by
  intro pieces
  induction pieces with
  | nil =>
    intro n idx c hc
    simp [textChunksGo] at hc
  | cons t ts ih =>
    intro n idx c hc
    by_cases h : t = "" ∨ (strip t).length < cfg.min_chunk_size
    · simp only [textChunksGo, if_pos h] at hc
      exact ih _ _ c hc
    · simp only [textChunksGo, if_neg h] at hc
      rcases List.mem_cons.mp hc with h1 | h1
      · exact ⟨n, idx, t, h, h1⟩
      · exact ih _ _ c h1

theorem tablePartsGo_mem {docId fn lang title caption : String}
    {pageIdx tableIdx total : Nat} {u : Nat → String} :
    ∀ (pieces : List String) (n idx : Nat) (c : Chunk),
      c ∈ (tablePartsGo docId fn lang title caption pageIdx tableIdx total u
        n idx pieces).1 →
      ∃ n2 idx2 t, t ∈ pieces ∧
        c = mkTablePartChunk (u n2) t docId fn lang pageIdx tableIdx idx2 total
          title caption := by
  intro pieces
  induction pieces with
  | nil =>
    intro n idx c hc
    simp [tablePartsGo] at hc
  | cons t ts ih =>
    intro n idx c hc
    simp only [tablePartsGo] at hc
    rcases List.mem_cons.mp hc with h1 | h1
    · exact ⟨n, idx, t, List.mem_cons_self _ _, h1⟩
    · obtain ⟨n2, idx2, t2, ht2, hc2⟩ := ih _ _ c h1
      exact ⟨n2, idx2, t2, List.mem_cons_of_mem _ ht2, hc2⟩

theorem chunkTablePreserving_mem {cfg : ChunkerCfg} {u : Nat → String} {n : Nat}
    {table : TableData} {tableIdx : Nat} {docId fn : String} {pageIdx : Nat}
    {lang : String} {c : Chunk}
    (hc : c ∈ (chunkTablePreserving cfg u n table tableIdx docId fn pageIdx lang).1) :
    strip (table.content.getD "") ≠ "" ∧
    (((assembleTable table tableIdx).length ≤ cfg.table_max_size ∧
       c = mkCompleteTableChunk (u n) (assembleTable table tableIdx) docId fn
         lang pageIdx tableIdx table.title table.caption) ∨
     (cfg.table_max_size < (assembleTable table tableIdx).length ∧
       ∃ n2 idx2 t,
         t ∈ splitText cfg.base_chunk_size cfg.chunk_overlap baseSeparators
           (assembleTable table tableIdx) ∧
         c = mkTablePartChunk (u n2) t docId fn lang pageIdx tableIdx idx2
           (splitText cfg.base_chunk_size cfg.chunk_overlap baseSeparators
             (assembleTable table tableIdx)).length table.title table.caption)) := by
  by_cases hbody : strip (table.content.getD "") = ""
  · simp [chunkTablePreserving, hbody] at hc
  · refine ⟨hbody, ?_⟩
    by_cases hfull : (assembleTable table tableIdx).length ≤ cfg.table_max_size
    · left
      refine ⟨hfull, ?_⟩
      simp [chunkTablePreserving, hbody, hfull] at hc
      exact hc
    · right
      refine ⟨by omega, ?_⟩
      simp only [chunkTablePreserving, if_neg hbody, if_neg hfull] at hc
      exact tablePartsGo_mem _ _ _ c hc

theorem chunkFigure_char {u : Nat → String} {n : Nat} {figure : FigureData}
    {figureIdx : Nat} {docId fn : String} {pageIdx : Nat} {lang : String}
    {c : Chunk}
    (h : (chunkFigure u n figure figureIdx docId fn pageIdx lang).1 = some c) :
    strip (assembleFigure figure) ≠ "" ∧
    c = mkFigureChunk (u n) (assembleFigure figure) docId fn lang pageIdx
      figureIdx figure.title figure.caption := by
  by_cases hguard : assembleFigure figure = "" ∨ strip (assembleFigure figure) = ""
  · simp [chunkFigure, hguard] at h
  · simp only [chunkFigure, if_neg hguard] at h
    push_neg at hguard
    exact ⟨hguard.2, (Option.some.injEq _ _ ▸ h).symm⟩

theorem tablesGo_mem {cfg : ChunkerCfg} {u : Nat → String} {docId fn : String}
    {pageIdx : Nat} {lang : String} :
    ∀ (ts : List (Option TableData)) (n tIdx : Nat) (c : Chunk),
      c ∈ (tablesGo cfg u docId fn pageIdx lang n tIdx ts).1 →
      ∃ t n2 tIdx2,
        c ∈ (chunkTablePreserving cfg u n2 t tIdx2 docId fn pageIdx lang).1 := by
  intro ts
  induction ts with
  | nil =>
    intro n tIdx c hc
    simp [tablesGo] at hc
  | cons hd tl ih =>
    intro n tIdx c hc
    cases hd with
    | none =>
      simp only [tablesGo] at hc
      exact ih _ _ c hc
    | some t =>
      simp only [tablesGo] at hc
      rcases List.mem_append.mp hc with h1 | h1
      · exact ⟨t, n, tIdx, h1⟩
      · exact ih _ _ c h1

theorem figuresGo_mem {u : Nat → String} {docId fn : String} {pageIdx : Nat}
    {lang : String} :
    ∀ (fs : List (Option FigureData)) (n fIdx : Nat) (c : Chunk),
      c ∈ (figuresGo u docId fn pageIdx lang n fIdx fs).1 →
      ∃ f n2 fIdx2,
        (chunkFigure u n2 f fIdx2 docId fn pageIdx lang).1 = some c := by
  intro fs
  induction fs with
  | nil =>
    intro n fIdx c hc
    simp [figuresGo] at hc
  | cons hd tl ih =>
    intro n fIdx c hc
    cases hd with
    | none =>
      simp only [figuresGo] at hc
      exact ih _ _ c hc
    | some f =>
      simp only [figuresGo] at hc
      cases hfig : (chunkFigure u n f fIdx docId fn pageIdx lang).1 with
      | none =>
        rw [hfig] at hc
        exact ih _ _ c hc
      | some c0 =>
        rw [hfig] at hc
        rcases List.mem_cons.mp hc with h1 | h1
        · exact ⟨f, n, fIdx, h1 ▸ hfig⟩
        · exact ih _ _ c h1

theorem chunkPage_mem {cfg : ChunkerCfg} {a : DocAnalysis} {u : Nat → String}
    {n : Nat} {p : PageData} {pageIdx : Nat} {docId fn : String} {c : Chunk}
    (hc : c ∈ (chunkPage cfg a u n p pageIdx docId fn).1) :
    (∃ n2 idx2 t lang headings,
       ¬(t = "" ∨ (strip t).length < cfg.min_chunk_size) ∧
       c = mkTextChunk a docId fn lang pageIdx idx2 (u n2) t headings) ∨
    (∃ tbl n2 tIdx2 lang,
       c ∈ (chunkTablePreserving cfg u n2 tbl tIdx2 docId fn pageIdx lang).1) ∨
    (∃ f n2 fIdx2 lang,
       (chunkFigure u n2 f fIdx2 docId fn pageIdx lang).1 = some c) := by
  simp only [chunkPage] at hc
  rcases List.mem_append.mp hc with h1 | h1
  · rcases List.mem_append.mp h1 with h2 | h2
    · by_cases hpc : pageContent p = ""
      · simp [hpc] at h2
      · rw [if_neg hpc] at h2
        simp only [chunkTextContentAdaptive] at h2
        obtain ⟨n2, idx2, t, hkeep, heq⟩ := textChunksGo_mem _ _ _ c h2
        exact Or.inl ⟨n2, idx2, t, _, _, hkeep, heq⟩
    · obtain ⟨tbl, n2, tIdx2, hmem⟩ := tablesGo_mem _ _ _ c h2
      exact Or.inr (Or.inl ⟨tbl, n2, tIdx2, _, hmem⟩)
  · obtain ⟨f, n2, fIdx2, hfig⟩ := figuresGo_mem _ _ _ c h1
    exact Or.inr (Or.inr ⟨f, n2, fIdx2, _, hfig⟩)

theorem pagesGo_mem {cfg : ChunkerCfg} {a : DocAnalysis} {u : Nat → String}
    {docId fn : String} :
    ∀ (ps : List PageData) (n pageIdx : Nat) (c : Chunk),
      c ∈ pagesGo cfg a u docId fn n pageIdx ps →
      ∃ p n2 pIdx2, c ∈ (chunkPage cfg a u n2 p pIdx2 docId fn).1 := by
  intro ps
  induction ps with
  | nil =>
    intro n pageIdx c hc
    simp [pagesGo] at hc
  | cons p ps ih =>
    intro n pageIdx c hc
    simp only [pagesGo] at hc
    rcases List.mem_append.mp hc with h1 | h1
    · exact ⟨p, n, pageIdx, h1⟩
    · exact ih _ _ c h1

/-- Case analysis for a chunk of `chunk_markdown_document`: it is a kept
text piece, a preserved table, a split-table piece, or a figure. -/
theorem chunk_cases {cfg : ChunkerCfg} {u : Nat → String} {docId fn : String}
    {doc : MarkdownDoc} {c : Chunk}
    (hc : c ∈ chunkMarkdownDocument cfg u docId fn doc) :
    (∃ a lang headings pageIdx idx uid t,
       ¬(t = "" ∨ (strip t).length < cfg.min_chunk_size) ∧
       c = mkTextChunk a docId fn lang pageIdx idx uid t headings) ∨
    (∃ uid tbl tblIdx pageIdx lang,
       strip (tbl.content.getD "") ≠ "" ∧
       (assembleTable tbl tblIdx).length ≤ cfg.table_max_size ∧
       c = mkCompleteTableChunk uid (assembleTable tbl tblIdx) docId fn lang
         pageIdx tblIdx tbl.title tbl.caption) ∨
    (∃ uid t tbl tblIdx pageIdx lang idx total,
       t ∈ splitText cfg.base_chunk_size cfg.chunk_overlap baseSeparators
         (assembleTable tbl tblIdx) ∧
       c = mkTablePartChunk uid t docId fn lang pageIdx tblIdx idx total
         tbl.title tbl.caption) ∨
    (∃ uid fig figIdx pageIdx lang,
       strip (assembleFigure fig) ≠ "" ∧
       c = mkFigureChunk uid (assembleFigure fig) docId fn lang pageIdx figIdx
         fig.title fig.caption) := by
  obtain ⟨p, n2, pIdx2, hpage⟩ := pagesGo_mem _ _ _ c hc
  rcases chunkPage_mem hpage with h | h | h
  · obtain ⟨n3, idx3, t, lang, headings, hkeep, heq⟩ := h
    exact Or.inl ⟨_, lang, headings, _, idx3, _, t, hkeep, heq⟩
  · obtain ⟨tbl, n3, tIdx3, lang, hmem⟩ := h
    obtain ⟨hbody, hcase⟩ := chunkTablePreserving_mem hmem
    rcases hcase with ⟨hfits, heq⟩ | ⟨hover, n4, idx4, t, ht, heq⟩
    · exact Or.inr (Or.inl ⟨_, tbl, tIdx3, _, lang, hbody, hfits, heq⟩)
    · exact Or.inr (Or.inr (Or.inl ⟨_, t, tbl, tIdx3, _, lang, idx4, _, ht, heq⟩))
  · obtain ⟨f, n3, fIdx3, lang, hfig⟩ := h
    obtain ⟨hne, heq⟩ := chunkFigure_char hfig
    exact Or.inr (Or.inr (Or.inr ⟨_, f, fIdx3, _, lang, hne, heq⟩))

end SmartChunker

namespace SmartChunker

open StrOps Splitter

/-- An id supply drawing the constant id `id-A` (one run of `uuid4`). -/
def uA : Nat → String := fun _ => "id-A"

/-- An id supply drawing the constant id `id-B` (another run of `uuid4`). -/
def uB : Nat → String := fun _ => "id-B"

/-- `n` repetitions of `a`. -/
def aStr (n : Nat) : String := String.mk (List.replicate n 'a')

/-- `n` repetitions of `b`. -/
def bStr (n : Nat) : String := String.mk (List.replicate n 'b')

/-- A small configuration (min size 5, base chunk size 12, table ceiling
20), used to keep the split-table counterexample evaluable inside the
kernel; the same phenomenon occurs at the production configuration. -/
def smallCfg : ChunkerCfg :=
  { base_chunk_size := 12
    chunk_overlap := 2
    min_chunk_size := 5
    max_chunk_size := 20
    table_max_size := 20 }

/-- A table whose assembled content (32 characters) exceeds `smallCfg`'s
`table_max_size` of 20 and splits into the pieces `"aaaaaaaaaa"`,
`"bbbbbbbbbbb"` and `"End."`. -/
def tinyTable : TableData := { content := some "aaaaaaaaaa\n\n\nbbbbbbbbbbb\n\n\nEnd." }

/-- A one-page document holding only the oversized table. -/
def docTinyTable : MarkdownDoc := { pages := [{ tables := [some tinyTable] }] }

/-- A one-page document with 120 characters of text and one titled
figure. -/
def docText : MarkdownDoc :=
  { pages := [{ markdown_content := some (aStr 120)
                figures := [some { title := "F" }] }] }

/-- A table whose body strips to nothing (title only). -/
def emptyTable : TableData := { title := "T", content := some "   " }

/-- A small table whose assembled content fits `table_max_size`. -/
def smallTable : TableData := { title := "T", content := some "data" }

/-- Erase the freshly drawn `chunk_id`, keeping every other field. -/
def eraseId (c : Chunk) : Chunk := { c with chunk_id := "" }

/-- The clamp to [1, 10] at the end of the tenths computation. -/
theorem clampTenths_bounds (x : Int) :
    1 ≤ (if 10 < (if x < 1 then 1 else x) then 10 else if x < 1 then 1 else x) ∧
    (if 10 < (if x < 1 then 1 else x) then 10 else if x < 1 then 1 else x) ≤ 10 := by
  by_cases h1 : x < 1
  · simp [h1]
  · by_cases h2 : (10 : Int) < x
    · simp [h1, h2]
    · simp only [if_neg h1, if_neg h2]
      omega

/-- `qualityTenths` lands in [1, 10]. -/
theorem qualityTenths_bounds (s : String) :
    1 ≤ qualityTenths s ∧ qualityTenths s ≤ 10 :=
  clampTenths_bounds _

/-- Bounds of the clamp in `_calculate_content_quality`. -/
theorem calcContentQuality_bounds (s : String) :
    mkRat 1 10 ≤ calcContentQuality s ∧ calcContentQuality s ≤ 1 := by
  obtain ⟨h1, h2⟩ := qualityTenths_bounds s
  unfold calcContentQuality
  rw [Rat.mkRat_eq_div, Rat.mkRat_eq_div]
  constructor
  · have hc : (1 : ℚ) ≤ (qualityTenths s : ℚ) := by exact_mod_cast h1
    linarith
  · have hc : ((qualityTenths s : ℚ)) ≤ 10 := by exact_mod_cast h2
    linarith

/-- The quality formula exactly as claim C7 words it: the 0.3 deduction
applies whenever a truncation marker (`"..."` or `"[truncated]"`) is
present at all. -/
def qualitySpecClaimed (content : String) : ℚ :=
  min 1 (max (1/10)
    (1/2 + (if sentenceEnd (strip content) then 1/5 else 0) +
      (if listMarkerStart (strip content) then 1/10 else 0) +
      (if 800 < (strip content).length then 1/10 else 0) -
      (if 0 < countSub ("...") content ∨ 0 < countSub ("[truncated]") content
        then 3/10 else 0)))

/-- The quality formula with the deduction condition the code actually
uses: more than two `"..."` occurrences, or any `"[truncated]"`. -/
def qualitySpecAmended (content : String) : ℚ :=
  min 1 (max (1/10)
    (1/2 + (if sentenceEnd (strip content) then 1/5 else 0) +
      (if listMarkerStart (strip content) then 1/10 else 0) +
      (if 800 < (strip content).length then 1/10 else 0) -
      (if 2 < countSub ("...") content ∨ 0 < countSub ("[truncated]") content
        then 3/10 else 0)))

/-- A piece containing a single `"..."` truncation marker. -/
def ellipsisPiece : String := "It works... fine."

theorem textChunksGo_erase {cfg : ChunkerCfg} {a : DocAnalysis}
    {docId fn lang : String} {pageIdx : Nat} (u1 u2 : Nat → String)
    (headings : List Heading) :
    ∀ (pieces : List String) (n1 n2 idx : Nat),
      ((textChunksGo cfg a docId fn lang pageIdx u1 headings n1 idx pieces).1).map eraseId =
      ((textChunksGo cfg a docId fn lang pageIdx u2 headings n2 idx pieces).1).map eraseId := by
  intro pieces
  induction pieces with
  | nil => intro n1 n2 idx; rfl
  | cons t ts ih =>
    intro n1 n2 idx
    by_cases h : t = "" ∨ (strip t).length < cfg.min_chunk_size
    · simp only [textChunksGo, if_pos h]
      exact ih _ _ _
    · simp only [textChunksGo, if_neg h, List.map_cons]
      rw [ih n1.succ n2.succ]
      rfl

theorem tablePartsGo_erase {docId fn lang title caption : String}
    {pageIdx tableIdx total : Nat} (u1 u2 : Nat → String) :
    ∀ (pieces : List String) (n1 n2 idx : Nat),
      ((tablePartsGo docId fn lang title caption pageIdx tableIdx total u1 n1 idx pieces).1).map eraseId =
      ((tablePartsGo docId fn lang title caption pageIdx tableIdx total u2 n2 idx pieces).1).map eraseId := by
  intro pieces
  induction pieces with
  | nil => intro n1 n2 idx; rfl
  | cons t ts ih =>
    intro n1 n2 idx
    simp only [tablePartsGo, List.map_cons]
    rw [ih n1.succ n2.succ]
    rfl

theorem chunkTablePreserving_erase {cfg : ChunkerCfg} (u1 u2 : Nat → String)
    {table : TableData} {tableIdx : Nat} {docId fn : String} {pageIdx : Nat}
    {lang : String} (n1 n2 : Nat) :
    ((chunkTablePreserving cfg u1 n1 table tableIdx docId fn pageIdx lang).1).map eraseId =
    ((chunkTablePreserving cfg u2 n2 table tableIdx docId fn pageIdx lang).1).map eraseId := by
  by_cases hbody : strip (table.content.getD "") = ""
  · simp [chunkTablePreserving, hbody]
  · by_cases hfits : (assembleTable table tableIdx).length ≤ cfg.table_max_size
    · simp only [chunkTablePreserving, if_neg hbody, if_pos hfits]
      rfl
    · simp only [chunkTablePreserving, if_neg hbody, if_neg hfits]
      exact tablePartsGo_erase u1 u2 _ n1 n2 0

theorem chunkFigure_erase (u1 u2 : Nat → String) {figure : FigureData}
    {figureIdx : Nat} {docId fn : String} {pageIdx : Nat} {lang : String}
    (n1 n2 : Nat) :
    ((chunkFigure u1 n1 figure figureIdx docId fn pageIdx lang).1).map eraseId =
    ((chunkFigure u2 n2 figure figureIdx docId fn pageIdx lang).1).map eraseId := by
  by_cases hguard : assembleFigure figure = "" ∨ strip (assembleFigure figure) = ""
  · simp [chunkFigure, hguard]
  · simp only [chunkFigure, if_neg hguard]
    rfl

theorem chunkFigure_counter (u1 u2 : Nat → String) {figure : FigureData}
    {figureIdx : Nat} {docId fn : String} {pageIdx : Nat} {lang : String}
    (n1 n2 : Nat) :
    ((chunkFigure u1 n1 figure figureIdx docId fn pageIdx lang).1).isSome =
    ((chunkFigure u2 n2 figure figureIdx docId fn pageIdx lang).1).isSome := by
  by_cases hguard : assembleFigure figure = "" ∨ strip (assembleFigure figure) = ""
  · simp [chunkFigure, hguard]
  · simp [chunkFigure, hguard]

theorem tablesGo_erase {cfg : ChunkerCfg} (u1 u2 : Nat → String)
    {docId fn : String} {pageIdx : Nat} {lang : String} :
    ∀ (ts : List (Option TableData)) (n1 n2 tIdx : Nat),
      ((tablesGo cfg u1 docId fn pageIdx lang n1 tIdx ts).1).map eraseId =
      ((tablesGo cfg u2 docId fn pageIdx lang n2 tIdx ts).1).map eraseId := by
  intro ts
  induction ts with
  | nil => intro n1 n2 tIdx; rfl
  | cons hd tl ih =>
    intro n1 n2 tIdx
    cases hd with
    | none =>
      simp only [tablesGo]
      exact ih _ _ _
    | some t =>
      simp only [tablesGo, List.map_append]
      rw [chunkTablePreserving_erase u1 u2 n1 n2, ih]

theorem figuresGo_erase (u1 u2 : Nat → String) {docId fn : String}
    {pageIdx : Nat} {lang : String} :
    ∀ (fs : List (Option FigureData)) (n1 n2 fIdx : Nat),
      ((figuresGo u1 docId fn pageIdx lang n1 fIdx fs).1).map eraseId =
      ((figuresGo u2 docId fn pageIdx lang n2 fIdx fs).1).map eraseId := by
  intro fs
  induction fs with
  | nil => intro n1 n2 fIdx; rfl
  | cons hd tl ih =>
    intro n1 n2 fIdx
    cases hd with
    | none =>
      simp only [figuresGo]
      exact ih _ _ _
    | some f =>
      by_cases hguard : assembleFigure f = "" ∨ strip (assembleFigure f) = ""
      · simp only [figuresGo, chunkFigure, if_pos hguard]
        exact ih _ _ _
      · simp only [figuresGo, chunkFigure, if_neg hguard, List.map_cons]
        rw [ih (n1 + 1) (n2 + 1)]
        rfl

theorem chunkPage_erase {cfg : ChunkerCfg} {a : DocAnalysis}
    (u1 u2 : Nat → String) {p : PageData} {pageIdx : Nat} {docId fn : String}
    (n1 n2 : Nat) :
    ((chunkPage cfg a u1 n1 p pageIdx docId fn).1).map eraseId =
    ((chunkPage cfg a u2 n2 p pageIdx docId fn).1).map eraseId := by
  simp only [chunkPage, List.map_append]
  by_cases hpc : pageContent p = ""
  · simp only [if_pos hpc]
    rw [tablesGo_erase u1 u2 _ n1 n2, figuresGo_erase u1 u2 _ _ _]
  · simp only [if_neg hpc, chunkTextContentAdaptive]
    rw [textChunksGo_erase u1 u2 _ _ n1 n2, tablesGo_erase u1 u2 _ _ _,
      figuresGo_erase u1 u2 _ _ _]

theorem pagesGo_erase {cfg : ChunkerCfg} {a : DocAnalysis}
    (u1 u2 : Nat → String) {docId fn : String} :
    ∀ (ps : List PageData) (n1 n2 pageIdx : Nat),
      (pagesGo cfg a u1 docId fn n1 pageIdx ps).map eraseId =
      (pagesGo cfg a u2 docId fn n2 pageIdx ps).map eraseId := by
  intro ps
  induction ps with
  | nil => intro n1 n2 pageIdx; rfl
  | cons p pstl ih =>
    intro n1 n2 pageIdx
    simp only [pagesGo, List.map_append]
    rw [chunkPage_erase u1 u2 n1 n2, ih]

end SmartChunker

namespace SmartChunker

open StrOps Splitter

/-- C3 (amended): every chunk the chunker produces has non-empty trimmed
content, and every text chunk has trimmed length at least
`min_chunk_size`; table chunks (complete or split) and figure chunks are
not subject to the minimum — in particular the pieces of a table that was
split because it exceeded `table_max_size` may be arbitrarily short. -/
theorem chunk_min_size_amended (cfg : ChunkerCfg) (u : Nat → String)
    (docId fn : String) (doc : MarkdownDoc)
    (hmin : 1 ≤ cfg.min_chunk_size) (hbase : 2 ≤ cfg.base_chunk_size) :
    ∀ c ∈ chunkMarkdownDocument cfg u docId fn doc,
      strip c.content ≠ "" ∧
      (c.content_type = "text" → cfg.min_chunk_size ≤ (strip c.content).length) := by
  intro c hc
  rcases chunk_cases hc with
    ⟨a, lang, headings, pageIdx, idx, uid, t, hkeep, heq⟩ |
    ⟨uid, tbl, tblIdx, pageIdx, lang, hbody, hfits, heq⟩ |
    ⟨uid, t, tbl, tblIdx, pageIdx, lang, idx, total, ht, heq⟩ |
    ⟨uid, fig, figIdx, pageIdx, lang, hne, heq⟩
  · push_neg at hkeep
    have hlen : cfg.min_chunk_size ≤ (strip t).length := hkeep.2
    subst heq
    constructor
    · show strip t ≠ ""
      intro hcon
      have h0 : (strip t).length = 0 := by rw [hcon]; rfl
      omega
    · intro _
      exact hlen
  · subst heq
    constructor
    · show strip (assembleTable tbl tblIdx) ≠ ""
      unfold assembleTable
      exact strip_append_ne _ _ (strip_strip_ne _ hbody)
    · intro hty
      simp [mkCompleteTableChunk] at hty
  · subst heq
    constructor
    · show strip t ≠ ""
      exact (splitText_good cfg.base_chunk_size cfg.chunk_overlap baseSeparators
        (assembleTable tbl tblIdx) hbase (by rfl) t ht).strip_ne
    · intro hty
      simp [mkTablePartChunk] at hty
  · subst heq
    refine ⟨hne, ?_⟩
    intro hty
    simp [mkFigureChunk] at hty

/-- The kept 120-character text chunk of `docText` under the production
configuration and the constant id supply `uA`. -/
def witTextChunk : Chunk :=
  { content := aStr 120
    document_id := "d1"
    filename := "f.pdf"
    page_number := 0
    chunk_index := 0
    content_type := "text"
    language := "en"
    chunk_size := 120
    chunk_id := "id-A"
    original_chunk_ref := "d1_p0_c0"
    heading_context := none
    quality_score := some (mkRat 1 2)
    is_complete_section := some false
    is_structured_document := some true
    document_complexity := some "high" }

/-- C3 witness: the amended statement evaluated on a concrete chunk of a
concrete document. -/
theorem chunk_min_size_amended_witness :
    strip witTextChunk.content ≠ "" ∧
    (witTextChunk.content_type = "text" →
      prodCfg.min_chunk_size ≤ (strip witTextChunk.content).length) :=
  chunk_min_size_amended prodCfg uA "d1" "f.pdf" docText (by decide) (by decide)
    witTextChunk (by decide)

/-- C3 counterexample: the oversized table of `docTinyTable` is split
(its assembled content exceeds `table_max_size`) and its last piece is
the chunk `"End."` — a split (non-complete-unit) table chunk whose
trimmed length 4 is below `min_chunk_size = 5`, contradicting the claim
that the pieces of a split table still meet the minimum. -/
theorem table_split_piece_below_min_counterexample :
    smallCfg.table_max_size < (assembleTable tinyTable 0).length ∧
    ((chunkMarkdownDocument smallCfg uA "doc-42" "f.pdf" docTinyTable).map
      (fun c => (c.content, c.is_complete_table))).getLast? =
      some ("End.", some false) ∧
    (strip "End.").length < smallCfg.min_chunk_size := by
  refine ⟨by decide, by decide, by decide⟩

/-- C4 (amended): for a table whose body is non-empty after trimming, if
the assembled content fits `table_max_size` then exactly one chunk is
produced, marked `is_complete_table = true` with quality 0.9; if it
exceeds `table_max_size`, every piece is tagged
`is_complete_table = false` with a `"Part i of n"` marker and the lower
fixed quality 0.6.  (A table whose body strips to nothing produces no
chunk at all, which the counterexample records.) -/
theorem table_preservation_amended (cfg : ChunkerCfg) (u : Nat → String) (n : Nat)
    (table : TableData) (tableIdx : Nat) (docId fn : String) (pageIdx : Nat)
    (lang : String) (hbody : strip (table.content.getD "") ≠ "") :
    ((assembleTable table tableIdx).length ≤ cfg.table_max_size →
      ∃ c, (chunkTablePreserving cfg u n table tableIdx docId fn pageIdx lang).1 = [c] ∧
        c.is_complete_table = some true ∧ c.quality_score = some (mkRat 9 10) ∧
        c.content = assembleTable table tableIdx) ∧
    (cfg.table_max_size < (assembleTable table tableIdx).length →
      ∀ c ∈ (chunkTablePreserving cfg u n table tableIdx docId fn pageIdx lang).1,
        c.is_complete_table = some false ∧ c.quality_score = some (mkRat 3 5) ∧
        ∃ (i : Nat) (total : Nat), c.table_part =
          some ("Part " ++ toString (i + 1) ++ " of " ++ toString total)) := by
  constructor
  · intro hfits
    refine ⟨mkCompleteTableChunk (u n) (assembleTable table tableIdx) docId fn
      lang pageIdx tableIdx table.title table.caption, ?_, rfl, rfl, rfl⟩
    simp [chunkTablePreserving, hbody, hfits]
  · intro hover c hc
    obtain ⟨_, hcase⟩ := chunkTablePreserving_mem hc
    rcases hcase with ⟨hfits, _⟩ | ⟨_, n2, idx2, t, _, heq⟩
    · omega
    · subst heq
      exact ⟨rfl, rfl, idx2, _, rfl⟩

/-- C4 witness: the amended statement evaluated on a concrete small
table. -/
theorem table_preservation_amended_witness :
    ((assembleTable smallTable 0).length ≤ prodCfg.table_max_size →
      ∃ c, (chunkTablePreserving prodCfg uA 0 smallTable 0 "d1" "f.pdf" 0 "en").1 = [c] ∧
        c.is_complete_table = some true ∧ c.quality_score = some (mkRat 9 10) ∧
        c.content = assembleTable smallTable 0) ∧
    (prodCfg.table_max_size < (assembleTable smallTable 0).length →
      ∀ c ∈ (chunkTablePreserving prodCfg uA 0 smallTable 0 "d1" "f.pdf" 0 "en").1,
        c.is_complete_table = some false ∧ c.quality_score = some (mkRat 3 5) ∧
        ∃ (i : Nat) (total : Nat), c.table_part =
          some ("Part " ++ toString (i + 1) ++ " of " ++ toString total)) :=
  table_preservation_amended prodCfg uA 0 smallTable 0 "d1" "f.pdf" 0 "en" (by decide)

/-- C4 counterexample: a table whose assembled content (15 characters) is
well below `table_max_size`, yet zero chunks are produced, because its
body strips to nothing — refuting "exactly one chunk" as stated. -/
theorem empty_table_counterexample :
    (assembleTable emptyTable 0).length ≤ prodCfg.table_max_size ∧
    chunkTablePreserving prodCfg uA 0 emptyTable 0 "d1" "f.pdf" 0 "en" = ([], 0) := by
  refine ⟨by decide, by decide⟩

/-- C5 (amended): the chunker is deterministic in everything except the
`chunk_id` field, which is a fresh `uuid.uuid4()` draw on every run: two
runs over identical input and configuration produce identical ordered
chunk sequences once `chunk_id` is erased. -/
theorem chunker_deterministic_except_ids (cfg : ChunkerCfg) (u1 u2 : Nat → String)
    (docId fn : String) (doc : MarkdownDoc) :
    (chunkMarkdownDocument cfg u1 docId fn doc).map eraseId =
    (chunkMarkdownDocument cfg u2 docId fn doc).map eraseId :=
  pagesGo_erase u1 u2 doc.pages 0 0 0

/-- C5 counterexample: two runs on the identical document, differing
only in their fresh-uuid draws (`uA` versus `uB`), produce different
chunk sequences — the `chunk_id` metadata field differs — refuting
determinism "including all metadata fields". -/
theorem chunk_id_nondeterminism_counterexample :
    chunkMarkdownDocument prodCfg uA "d1" "f.pdf" docText ≠
    chunkMarkdownDocument prodCfg uB "d1" "f.pdf" docText := by decide

/-- C6 (amended): text and table chunks carry a `quality_score` in
[0.1, 1.0], but figure chunks carry no `quality_score` at all. -/
theorem quality_range_amended (cfg : ChunkerCfg) (u : Nat → String)
    (docId fn : String) (doc : MarkdownDoc) :
    ∀ c ∈ chunkMarkdownDocument cfg u docId fn doc,
      (c.content_type = "figure" → c.quality_score = none) ∧
      (c.content_type ≠ "figure" →
        ∃ q, c.quality_score = some q ∧ mkRat 1 10 ≤ q ∧ q ≤ 1) := by
  intro c hc
  rcases chunk_cases hc with
    ⟨a, lang, headings, pageIdx, idx, uid, t, hkeep, heq⟩ |
    ⟨uid, tbl, tblIdx, pageIdx, lang, hbody, hfits, heq⟩ |
    ⟨uid, t, tbl, tblIdx, pageIdx, lang, idx, total, ht, heq⟩ |
    ⟨uid, fig, figIdx, pageIdx, lang, hne, heq⟩
  · subst heq
    constructor
    · intro hty
      simp [mkTextChunk] at hty
    · intro _
      exact ⟨calcContentQuality t, rfl, (calcContentQuality_bounds t).1,
        (calcContentQuality_bounds t).2⟩
  · subst heq
    exact ⟨fun hty => by simp [mkCompleteTableChunk] at hty,
      fun _ => ⟨mkRat 9 10, rfl, by decide, by decide⟩⟩
  · subst heq
    exact ⟨fun hty => by simp [mkTablePartChunk] at hty,
      fun _ => ⟨mkRat 3 5, rfl, by decide, by decide⟩⟩
  · subst heq
    exact ⟨fun _ => rfl, fun hty => absurd rfl hty⟩

/-- The figure chunk of `docText` under the production configuration and
the constant id supply `uA`. -/
def witFigureChunk : Chunk :=
  { content := "Figure: F\n"
    document_id := "d1"
    filename := "f.pdf"
    page_number := 0
    chunk_index := 0
    content_type := "figure"
    language := "en"
    chunk_size := 10
    chunk_id := "id-A"
    original_chunk_ref := "d1_p0_f0"
    figure_index := some 0
    figure_title := some "F"
    figure_caption := some "" }

/-- C6 witness: the amended statement evaluated on the concrete figure
chunk of a concrete document. -/
theorem quality_range_amended_witness :
    (witFigureChunk.content_type = "figure" → witFigureChunk.quality_score = none) ∧
    (witFigureChunk.content_type ≠ "figure" →
      ∃ q, witFigureChunk.quality_score = some q ∧ mkRat 1 10 ≤ q ∧ q ≤ 1) :=
  quality_range_amended prodCfg uA "d1" "f.pdf" docText witFigureChunk (by decide)

/-- C6 counterexample: the chunker emits this figure chunk, and its
metadata carries no `quality_score` field at all — refuting the claim
that every chunk carries a quality score in [0.1, 1.0]. -/
theorem figure_quality_missing_counterexample :
    witFigureChunk ∈ chunkMarkdownDocument prodCfg uA "d1" "f.pdf" docText ∧
    witFigureChunk.quality_score = none := by
  refine ⟨by decide, rfl⟩

/-- C7 (amended): the quality score equals the clamp to [0.1, 1.0] of
0.5, +0.2 for sentence-final punctuation, +0.1 for a list/heading-marker
start, +0.1 for length above 800, and −0.3 only when `"..."` occurs more
than twice or `"[truncated]"` occurs at least once (not merely when a
truncation marker is present). -/
theorem quality_formula_amended (s : String) :
    calcContentQuality s = qualitySpecAmended s := by
  unfold calcContentQuality qualityTenths qualitySpecAmended hasTruncMarkers
  by_cases h1 : sentenceEnd (strip s) = true <;>
  by_cases h2 : listMarkerStart (strip s) = true <;>
  by_cases h3 : 800 < (strip s).length <;>
  by_cases h4 : 2 < countSub ("...") s ∨ 0 < countSub ("[truncated]") s <;>
  simp [h1, h2, h3, h4] <;>
  norm_num [Rat.mkRat_eq_div]

/-- C7 counterexample: a piece containing one `"..."` marker; the code
gives it score 0.7 (no deduction, since `count("...") = 1` is not `> 2`),
while the claimed formula — deduct 0.3 whenever a marker is present —
gives 0.4. -/
theorem single_ellipsis_counterexample :
    0 < countSub ("...") ellipsisPiece ∧
    calcContentQuality ellipsisPiece = mkRat 7 10 ∧
    qualitySpecClaimed ellipsisPiece = mkRat 2 5 := by
  refine ⟨by decide, by decide, ?_⟩
  have h1 : sentenceEnd (strip ellipsisPiece) = true := by decide
  have h2 : listMarkerStart (strip ellipsisPiece) = false := by decide
  have h3 : (strip ellipsisPiece).length = 17 := by decide
  have h4 : countSub ("...") ellipsisPiece = 1 := by decide
  have h5 : countSub ("[truncated]") ellipsisPiece = 0 := by decide
  simp only [qualitySpecClaimed, h1, h2, h3, h4, h5]
  norm_num [Rat.mkRat_eq_div]

end SmartChunker

namespace QdrantStore

open StrOps SmartChunker

/-- A stored point used as the single indexed chunk of the store. -/
def pt1 : StoredPoint :=
  { id := "pt1"
    payload := { chunk_id := "c1"
                 document_id := "d1"
                 filename := "f.pdf"
                 content := "hello world"
                 content_type := "text"
                 page_number := 0
                 chunk_index := 0
                 chunk_size := 11
                 language := "en"
                 heading_context := none
                 indexed_at := "t0" } }

/-- The result `hybrid_search` returns for `pt1` ranked first by both
sources: fused score `1/(2+1) + 1/(2+1) = 2/3`. -/
def pt1Result : SearchResult :=
  { chunk_id := "pt1"
    score := mkRat 2 3
    search_type := "official_hybrid_rrf"
    content := "hello world"
    document_id := "d1"
    content_type := "text"
    page_number := 0
    chunk_index := 0
    metadata := { chunk_id := "c1"
                  filename := "f.pdf"
                  chunk_size := 11
                  language := "en"
                  heading_context := none
                  indexed_at := "t0" } }

/-- C1: refuted — `hybrid_search` accepts `score_threshold` but never
passes it to the backend query, so a search over one indexed chunk with
threshold 1.1 still returns that chunk (fused score 2/3 < 1.1) instead of
the empty list the claim requires. -/
theorem hybrid_search_threshold_not_applied :
    hybrid_search [pt1] [pt1] "q" none none 10 (mkRat 11 10) = [pt1Result] ∧
    pt1Result.score < mkRat 11 10 := by
  refine ⟨by decide, by decide⟩

/-- C8 (amended): when the upload to the storage backend fails during
indexing, `index_document` raises a failure wrapping the original error
under the fixed prefix `"Failed to index document: "`; the document id is
only logged, not carried by the raised failure. -/
theorem index_error_message_amended (u : Nat → String) (now : String)
    (document_id filename e : String) (doc : MarkdownDoc)
    (hpages : doc.pages ≠ [])
    (hsurv : survivingContents
      (chunkMarkdownDocument prodCfg u document_id filename doc) ≠ []) :
    index_document u now (Except.error e) document_id filename (some doc) =
      Except.error (indexFailMsg e) := by
  have hchunks : chunkMarkdownDocument prodCfg u document_id filename doc ≠ [] := by
    intro h
    rw [h] at hsurv
    exact hsurv rfl
  simp [index_document, hpages, hchunks, hsurv]

/-- C8 witness: the amended statement evaluated on a concrete document
and failing upload. -/
theorem index_error_message_amended_witness :
    index_document SmartChunker.uA "t0" (Except.error "boom") "doc-42" "f.pdf"
      (some SmartChunker.docText) = Except.error (indexFailMsg "boom") :=
  index_error_message_amended SmartChunker.uA "t0" "doc-42" "f.pdf" "boom"
    SmartChunker.docText (by decide) (by decide)

/-- C8 counterexample: the failure raised for document `"doc-42"` is the
bare wrapped message, which does not contain the document id anywhere —
refuting the claim that the raised failure carries the originating
document id. -/
theorem index_error_lacks_doc_id_counterexample :
    index_document SmartChunker.uA "t0" (Except.error "boom") "doc-42" "f.pdf"
      (some SmartChunker.docText) =
      Except.error "Failed to index document: boom" ∧
    occursIn "doc-42" "Failed to index document: boom" = false := by
  refine ⟨rfl, by decide⟩

end QdrantStore

namespace AgenticRag

open StrOps QdrantStore

/-- C2 (amended): whenever the graph has been built, `ask_question`
never propagates an exception and always returns a well-formed response
dict.  An exception that reaches the top-level handler — in particular
one raised by the language-model service during the graph invocation —
yields exactly the fixed apologetic answer with an empty sources list.
An exception raised by the retrieval backend, however, never reaches
that handler: it is absorbed inside the retriever into an empty document
list, the loop completes normally, and the call returns the ordinary
generated answer of the completed message sequence. -/
theorem ask_question_failure_semantics_amended
    (invokeOutcome : Except String (List Msg)) (slot : List RetDoc)
    (question sessionId : String) :
    (∃ r, ask_question true invokeOutcome slot question sessionId = Except.ok r) ∧
    (∀ e, invokeOutcome = Except.error e →
      ask_question true invokeOutcome slot question sessionId =
        Except.ok (fallbackResponse question sessionId)) ∧
    (fallbackResponse question sessionId).sources = [] ∧
    (fallbackResponse question sessionId).answer = fallbackAnswer ∧
    (∀ (e : String) (prev : List RetDoc),
      get_relevant_documents (Except.error e) prev = ([], [])) ∧
    (∀ (msgs : List Msg) (m : Msg), msgs.getLast? = some m →
      ask_question true (Except.ok msgs) slot question sessionId =
        Except.ok { answer := m.content
                    sources := extract_sources slot msgs
                    conversation := msgs
                    session_id := sessionId }) := by
  refine ⟨?_, ?_, rfl, rfl, fun e prev => rfl, ?_⟩
  · cases invokeOutcome with
    | error e => exact ⟨fallbackResponse question sessionId, rfl⟩
    | ok msgs =>
      cases hlast : msgs.getLast? with
      | none =>
        refine ⟨fallbackResponse question sessionId, ?_⟩
        simp [ask_question, hlast]
      | some m =>
        refine ⟨{ answer := m.content
                  sources := extract_sources slot msgs
                  conversation := msgs
                  session_id := sessionId }, ?_⟩
        simp [ask_question, hlast]
  · intro e he
    cases invokeOutcome with
    | error e2 => rfl
    | ok msgs => simp at he
  · intro msgs m hm
    simp [ask_question, hm]

/-- C2 witness: the amended statement evaluated on concrete inputs —
a failing graph invocation returns the fixed fallback, a failing search
is absorbed into an empty document list, and a completed message
sequence returns its ordinary final answer. -/
theorem ask_question_failure_semantics_amended_witness :
    (∃ r, ask_question true (Except.error "boom") [] "q" "s" = Except.ok r) ∧
    ask_question true (Except.error "boom") [] "q" "s" =
      Except.ok (fallbackResponse "q" "s") ∧
    get_relevant_documents (Except.error "down") [] = ([], []) ∧
    ask_question true (Except.ok [{ role := "user", content := "hi" }]) [] "q" "s" =
      Except.ok { answer := "hi"
                  sources := extract_sources [] [{ role := "user", content := "hi" }]
                  conversation := [{ role := "user", content := "hi" }]
                  session_id := "s" } := by
  obtain ⟨h1, h2, h3, h4, h5, h6⟩ :=
    ask_question_failure_semantics_amended (Except.error "boom") [] "q" "s"
  exact ⟨h1, h2 "boom" rfl, h5 "down" [],
    h6 [{ role := "user", content := "hi" }] { role := "user", content := "hi" } rfl⟩

/-- A completed loop trace of an `ask` call during which the retrieval
backend raised: the retriever swallowed the exception and returned zero
documents, the tool step therefore appended an empty tool message, the
grader conservatively routed to a rewrite, and the model finally
produced an ordinary answer. -/
def loopAfterRetrievalFailure : List Msg :=
  [{ role := "user", content := "q" },
   { role := "assistant", content := "" },
   { role := "tool", content := "" },
   { role := "user", content := "what does the document say" },
   { role := "assistant", content := "I could not find relevant information." }]

/-- C2 counterexample: an ask call during which the retrieval backend
raises.  The exception is absorbed inside the retriever (empty document
list, slot reset), the empty retrieved context routes the loop through a
rewrite rather than an error, and `ask_question` returns the loop's
ordinary final answer — not the fixed apologetic fallback the claim
requires for every retrieval-backend exception. -/
theorem retrieval_error_ordinary_answer_counterexample :
    get_relevant_documents (Except.error "connection refused") [] = ([], []) ∧
    grade_documents (loopAfterRetrievalFailure.take 3) "yes" =
      Route.rewrite_question ∧
    ask_question true (Except.ok loopAfterRetrievalFailure) [] "q" "s" =
      Except.ok { answer := "I could not find relevant information."
                  sources := []
                  conversation := loopAfterRetrievalFailure
                  session_id := "s" } ∧
    "I could not find relevant information." ≠ fallbackAnswer := by
  refine ⟨rfl, rfl, rfl, by decide⟩

/-- C9: the grading step is a total function of the grader's binary
judgment and the extracted context; it routes to the answer node exactly
when the judgment is `"yes"` and a retrieved context is present, and to
the rewrite node when the judgment is anything else or no context is
present at all. -/
theorem grade_documents_characterization (msgs : List Msg) (j : String) :
    (grade_documents msgs j = Route.generate_answer ↔
      (j = "yes" ∧ lastToolContext msgs ≠ "")) ∧
    (grade_documents msgs j = Route.rewrite_question ↔
      (j ≠ "yes" ∨ lastToolContext msgs = "")) := by
  unfold grade_documents
  by_cases hctx : lastToolContext msgs = ""
  · simp [hctx]
  · by_cases hj : j = "yes"
    · simp [hctx, hj]
    · simp [hctx, hj]

/-- C10: when the hybrid search raises during a retrieval-tool
invocation, the retriever returns the empty document list and resets the
last-retrieved-evidence slot to empty, regardless of what the slot held
before — no exception propagates and no stale evidence survives. -/
theorem retrieval_failure_clears_slot (e : String) (prevSlot : List RetDoc) :
    get_relevant_documents (Except.error e) prevSlot = ([], []) := rfl

end AgenticRag
